import Mathlib

set_option maxRecDepth 20000

/-!
# Verification of the `gencal` calendar-grid construction

Shallow embedding of `src/templatetags/gencal.py` (the `gencal` inclusion
tag and its nested helpers `get_iterable_days`, `get_prev_next_months`,
`get_events_by_day`), together with proofs of the specified properties.

Dates are modelled as proleptic-Gregorian `(year, month, day)` triples,
exactly as Python's `datetime.date`; `toOrdinal` mirrors
`datetime.date.toordinal` (ordinal 1 = 0001-01-01) and `weekday` mirrors
`datetime.date.weekday` (0 = Monday .. 6 = Sunday).  Adding/subtracting a
`datetime.timedelta` of whole days is modelled by iterated calendar
successor/predecessor (`addDays`/`subDays`), which agrees with Python's
ordinal arithmetic on valid dates.
-/

/-- A calendar date, as `datetime.date(year, month, day)`. -/
structure Date where
  year : Nat
  month : Nat
  day : Nat
deriving DecidableEq, Repr, Inhabited

/-- A timestamp, as `datetime.datetime`: a calendar date possibly carrying a
time-of-day component. -/
structure DateTime where
  year : Nat
  month : Nat
  day : Nat
  hour : Nat
  minute : Nat
deriving DecidableEq, Repr, Inhabited

/-- `calendar.isleap`: Gregorian leap-year predicate. -/
def isLeap (y : Nat) : Bool :=
  (y % 4 == 0 && y % 100 != 0) || (y % 400 == 0)

/-- Number of days in a month (`calendar.monthrange(y, m)[1]` for `m` in 1..12). -/
def daysInMonth (y m : Nat) : Nat :=
  if m = 2 then (if isLeap y then 29 else 28)
  else if m = 4 ∨ m = 6 ∨ m = 9 ∨ m = 11 then 30
  else 31

/-- Days in year `y` that precede the first of month `m`. -/
def daysBeforeMonth (y m : Nat) : Nat :=
  ((List.range (m - 1)).map (fun k => daysInMonth y (k + 1))).sum

/-- Days before January 1 of year `y` (for `y ≥ 1`), as in CPython's
`datetime` module: `365*(y-1) + (y-1)//4 - (y-1)//100 + (y-1)//400`. -/
def daysBeforeYear (y : Nat) : Nat :=
  365 * (y - 1) + (y - 1) / 4 - (y - 1) / 100 + (y - 1) / 400

/-- `datetime.date.toordinal`: day 1 is 0001-01-01. -/
def toOrdinal (d : Date) : Nat :=
  daysBeforeYear d.year + daysBeforeMonth d.year d.month + d.day

/-- `datetime.date.weekday`: 0 = Monday .. 6 = Sunday. -/
def weekday (d : Date) : Nat :=
  (toOrdinal d + 6) % 7

/-- Validity of a `Date`, as enforced by the `datetime.date` constructor
(month in 1..12, day in 1..days-of-month). -/
def Date.valid (d : Date) : Prop :=
  1 ≤ d.month ∧ d.month ≤ 12 ∧ 1 ≤ d.day ∧ d.day ≤ daysInMonth d.year d.month

instance (d : Date) : Decidable d.valid := by
  unfold Date.valid; infer_instance

/-- Calendar successor: `d + datetime.timedelta(1)`. -/
def succDay (d : Date) : Date :=
  if d.day < daysInMonth d.year d.month then ⟨d.year, d.month, d.day + 1⟩
  else if d.month < 12 then ⟨d.year, d.month + 1, 1⟩
  else ⟨d.year + 1, 1, 1⟩

/-- Calendar predecessor: `d - datetime.timedelta(1)`. -/
def predDay (d : Date) : Date :=
  if 2 ≤ d.day then ⟨d.year, d.month, d.day - 1⟩
  else if 2 ≤ d.month then ⟨d.year, d.month - 1, daysInMonth d.year (d.month - 1)⟩
  else ⟨d.year - 1, 12, 31⟩

/-- `d + datetime.timedelta(n)`. -/
def addDays (d : Date) : Nat → Date
  | 0 => d
  | n + 1 => succDay (addDays d n)

/-- `d - datetime.timedelta(n)`. -/
def subDays (d : Date) : Nat → Date
  | 0 => d
  | n + 1 => predDay (subDays d n)

/-- `datetime.date(d.year, d.month, d.day)`: the date-only key used by
`get_events_by_day` to group an event's (possibly time-bearing) `day`. -/
def toDate (dt : DateTime) : Date :=
  ⟨dt.year, dt.month, dt.day⟩

/-- Failure modes of the calendar build, per the error taxonomy:
`invalidDate` models `calendar.IllegalMonthError` raised by
`calendar.monthrange` for a month outside 1..12, `invalidEvent` models the
`KeyError`/`AttributeError` raised when an event's `day` entry is missing or
unusable, and `assertionFailed` models the
`assert total_days_in_calendar % 7 == 0` statement. -/
inductive GencalError
  | invalidDate
  | invalidEvent
  | assertionFailed
deriving DecidableEq, Repr

/-- An entry of the `cal_items` input list: a dict with keys
`day`, `title`, `url`, `class`.  A `none` day models a missing/unusable
`'day'` entry. -/
structure CalItem where
  day : Option DateTime
  title : String
  url : Option String
  cls : String
deriving DecidableEq, Repr

/-- A grouped event record, as appended by `get_events_by_day`:
`{'title':…, 'url':…, 'class':…, 'timestamp':event['day']}`. -/
structure GEvent where
  title : String
  url : Option String
  cls : String
  timestamp : DateTime
deriving DecidableEq, Repr

/-- One cell of the grid: `{'day': day, 'event': events_by_day[day],
'in_month': day.month == month}`. -/
structure CalDay where
  day : Date
  event : List GEvent
  in_month : Bool
deriving DecidableEq, Repr

/-- The dict returned by `gencal`. -/
structure GencalResult where
  month_cal : List (List CalDay)
  headers : List String
  date : Date
  prev_date : Date
  next_date : Date
deriving DecidableEq, Repr

/-! Local values of `get_iterable_days(year, month)`, lifted to top-level
definitions. -/

/-- `first_day_of_month = datetime.date(year, month, 1)`. -/
def first_day_of_month (year month : Nat) : Date := ⟨year, month, 1⟩

/-- `last_day_of_month = datetime.date(year, month, days_in_month)`. -/
def last_day_of_month (year month : Nat) : Date :=
  ⟨year, month, daysInMonth year month⟩

/-- `head_days = first_day_of_month.weekday()`. -/
def head_days (year month : Nat) : Nat :=
  weekday (first_day_of_month year month)

/-- `tail_days = 6 - last_day_of_month.weekday()`. -/
def tail_days (year month : Nat) : Nat :=
  6 - weekday (last_day_of_month year month)

/-- `total_days_in_calendar = head_days + days_in_month + tail_days`. -/
def total_days_in_calendar (year month : Nat) : Nat :=
  head_days year month + daysInMonth year month + tail_days year month

/-- `first_day_of_calendar = first_day_of_month - timedelta(first_day_of_month.weekday())`. -/
def first_day_of_calendar (year month : Nat) : Date :=
  subDays (first_day_of_month year month) (head_days year month)

/-- `get_iterable_days(year, month)`: every day shown in the calendar, from
the Monday on or before the 1st through the Sunday on or after the last day.
`calendar.monthrange` raises for a month outside 1..12 (`invalidDate`), and
the `assert total_days_in_calendar % 7 == 0` is modelled explicitly. -/
def get_iterable_days (year month : Nat) : Except GencalError (List Date) :=
  if month < 1 ∨ 12 < month then .error .invalidDate
  else if total_days_in_calendar year month % 7 = 0 then
    .ok ((List.range (total_days_in_calendar year month)).map
          (fun i => addDays (first_day_of_calendar year month) i))
  else .error .assertionFailed

/-- `get_prev_next_months(year, month)`: the 1st of the previous and next
months, with year rollover at the boundaries. -/
def get_prev_next_months (year month : Nat) : Date × Date :=
  let lastmonth := month - 1
  let nextmonth := month + 1
  if lastmonth = 0 then
    (⟨year - 1, 12, 1⟩, ⟨year, nextmonth, 1⟩)
  else if nextmonth = 13 then
    (⟨year, lastmonth, 1⟩, ⟨year + 1, 1, 1⟩)
  else
    (⟨year, lastmonth, 1⟩, ⟨year, nextmonth, 1⟩)

/-- `get_events_by_day(cal_items)`: reduce `cal_items`, in order, to a
date-keyed collection of event records.  The defaultdict is modelled as the
keyed list of entries (lookup = `lookupDay`); an event whose `day` entry is
missing raises (`invalidEvent`), at the first such event. -/
def get_events_by_day : List CalItem → Except GencalError (List (Date × GEvent))
  | [] => .ok []
  | e :: rest =>
    match e.day with
    | none => .error .invalidEvent
    | some dt => do
        let tail_list ← get_events_by_day rest
        .ok ((toDate dt, ⟨e.title, e.url, e.cls, dt⟩) :: tail_list)

/-- `events_by_day[d]`: all entries grouped under key `d`, in insertion
order (which is input order). -/
def lookupDay (l : List (Date × GEvent)) (d : Date) : List GEvent :=
  (l.filter (fun p => decide (p.1 = d))).map Prod.snd

/-- The week-building loop of `gencal`: accumulate each day into `week`,
and flush `week` into `month_cal` whenever the day is a Sunday.  A trailing
partial week is dropped, exactly as in the source. -/
def buildWeeks (mk : Date → CalDay) :
    List Date → List CalDay → List (List CalDay) → List (List CalDay)
  | [], _, acc => acc
  | d :: rest, week, acc =>
    let week' := week ++ [mk d]
    if weekday d = 6 then buildWeeks mk rest [] (acc ++ [week'])
    else buildWeeks mk rest week' acc

/-- `calendar.weekheader(2).split(' ')` in the C locale. -/
def week_headers : List String := ["Mo", "Tu", "We", "Th", "Fr", "Sa", "Su"]

/-- `gencal(date, cal_items)`: group the events, enumerate the days,
partition them into weeks, and assemble the result dict.  Failures follow
the source's evaluation order: `get_events_by_day` runs before the day
iteration. -/
def gencal (date : Date) (cal_items : List CalItem) :
    Except GencalError GencalResult := do
  let events_by_day ← get_events_by_day cal_items
  let days ← get_iterable_days date.year date.month
  let month_cal := buildWeeks
    (fun day => ⟨day, lookupDay events_by_day day, day.month == date.month⟩)
    days [] []
  let pn := get_prev_next_months date.year date.month
  .ok ⟨month_cal, week_headers, date, pn.1, pn.2⟩

/-- The concrete day list shown for a year/month (empty for an invalid
month); statement-level accessor for `get_iterable_days`. -/
def iterableDaysList (year month : Nat) : List Date :=
  ((get_iterable_days year month).toOption).getD []

/-- Partition a list into `n` consecutive chunks of 7. -/
def chunksAux {α : Type} : Nat → List α → List (List α)
  | 0, _ => []
  | n + 1, l => l.take 7 :: chunksAux n (l.drop 7)

example : toOrdinal ⟨1, 1, 1⟩ = 1 := by decide
example : toOrdinal ⟨2008, 2, 1⟩ = 733073 := by decide
example : weekday ⟨2008, 2, 1⟩ = 4 := by decide
example : weekday ⟨2008, 1, 28⟩ = 0 := by decide
example : daysInMonth 2008 2 = 29 := by decide
example : (iterableDaysList 2008 2).length = 35 := by decide
example : (iterableDaysList 2008 2).head? = some ⟨2008, 1, 28⟩ := by decide
example : (iterableDaysList 2008 2).getLast? = some ⟨2008, 3, 2⟩ := by decide

/-! ## Day-arithmetic lemmas -/

theorem toOrdinal_mk (y m d : Nat) :
    toOrdinal ⟨y, m, d⟩ = daysBeforeYear y + daysBeforeMonth y m + d := rfl

theorem valid_mk (y m d : Nat) :
    Date.valid ⟨y, m, d⟩ ↔ 1 ≤ m ∧ m ≤ 12 ∧ 1 ≤ d ∧ d ≤ daysInMonth y m := Iff.rfl

theorem year_mk (y m d : Nat) : (Date.mk y m d).year = y := rfl

theorem month_mk (y m d : Nat) : (Date.mk y m d).month = m := rfl

theorem day_mk (y m d : Nat) : (Date.mk y m d).day = d := rfl

theorem succDay_mk (y m d : Nat) :
    succDay ⟨y, m, d⟩ =
      if d < daysInMonth y m then ⟨y, m, d + 1⟩
      else if m < 12 then ⟨y, m + 1, 1⟩
      else ⟨y + 1, 1, 1⟩ := rfl

theorem predDay_mk (y m d : Nat) :
    predDay ⟨y, m, d⟩ =
      if 2 ≤ d then ⟨y, m, d - 1⟩
      else if 2 ≤ m then ⟨y, m - 1, daysInMonth y (m - 1)⟩
      else ⟨y - 1, 12, 31⟩ := rfl

theorem daysInMonth_bounds (y m : Nat) :
    28 ≤ daysInMonth y m ∧ daysInMonth y m ≤ 31 := by
  unfold daysInMonth
  split_ifs <;> omega

theorem daysBeforeMonth_one (y : Nat) : daysBeforeMonth y 1 = 0 := rfl

theorem daysBeforeMonth_succ (y m : Nat) (hm : 1 ≤ m) :
    daysBeforeMonth y (m + 1) = daysBeforeMonth y m + daysInMonth y m := by
  obtain ⟨n, rfl⟩ : ∃ n, m = n + 1 := ⟨m - 1, by omega⟩
  simp [daysBeforeMonth, List.range_succ]

theorem daysBeforeMonth_year (y : Nat) :
    daysBeforeMonth y 13 = if isLeap y then 366 else 365 := by
  unfold daysBeforeMonth
  have hr : List.range (13 - 1) = [0, 1, 2, 3, 4, 5, 6, 7, 8, 9, 10, 11] := by rfl
  rw [hr]
  cases h : isLeap y <;> simp [daysInMonth, h]

set_option maxHeartbeats 2000000 in
theorem daysBeforeYear_succ (y : Nat) (hy : 1 ≤ y) :
    daysBeforeYear (y + 1) = daysBeforeYear y + (if isLeap y then 366 else 365) := by
  obtain ⟨a, rfl⟩ : ∃ a, y = a + 1 := ⟨y - 1, by omega⟩
  simp only [daysBeforeYear, isLeap, Nat.add_sub_cancel, Bool.or_eq_true, Bool.and_eq_true,
    beq_iff_eq, bne_iff_ne, ne_eq]
  split_ifs with h <;> omega

theorem year_ge_two (y : Nat) (hy : 1 ≤ y)
    (h2 : 2 ≤ daysBeforeYear y + daysBeforeMonth y 1 + 1) : 2 ≤ y := by
  by_contra hc
  have h1 : y = 1 := by omega
  subst h1
  have e1 : daysBeforeYear 1 = 0 := by decide
  have e2 : daysBeforeMonth 1 1 = 0 := rfl
  omega

theorem succDay_spec (d : Date) (hv : d.valid) (hy : 1 ≤ d.year) :
    toOrdinal (succDay d) = toOrdinal d + 1 ∧ (succDay d).valid ∧ 1 ≤ (succDay d).year := by
  obtain ⟨y, m, dd⟩ := d
  obtain ⟨hm1, hm2, hd1, hd2⟩ := (valid_mk y m dd).mp hv
  have hy' : 1 ≤ y := hy
  by_cases h1 : dd < daysInMonth y m
  · simp only [succDay_mk, h1, if_true, toOrdinal_mk, valid_mk, year_mk]
    omega
  · have hdd : dd = daysInMonth y m := by omega
    by_cases h2 : m < 12
    · have hstep := daysBeforeMonth_succ y m hm1
      have h28 := daysInMonth_bounds y (m + 1)
      simp only [succDay_mk, h1, h2, if_true, if_false, toOrdinal_mk, valid_mk, year_mk]
      omega
    · have hm12 : m = 12 := by omega
      subst hm12
      have hyr := daysBeforeYear_succ y hy'
      have h13 := daysBeforeMonth_succ y 12 (by omega)
      rw [daysBeforeMonth_year y] at h13
      have h28 := daysInMonth_bounds (y + 1) 1
      have hz : daysBeforeMonth (y + 1) 1 = 0 := rfl
      simp only [succDay_mk, h1, h2, if_false, toOrdinal_mk, valid_mk, year_mk]
      split_ifs at hyr h13 <;> omega

theorem predDay_spec (d : Date) (hv : d.valid) (hy : 1 ≤ d.year) (h2 : 2 ≤ toOrdinal d) :
    toOrdinal (predDay d) = toOrdinal d - 1 ∧ (predDay d).valid ∧ 1 ≤ (predDay d).year := by
  obtain ⟨y, m, dd⟩ := d
  obtain ⟨hm1, hm2, hd1, hd2⟩ := (valid_mk y m dd).mp hv
  have hy' : 1 ≤ y := hy
  have h2' : 2 ≤ daysBeforeYear y + daysBeforeMonth y m + dd := h2
  by_cases hdd : 2 ≤ dd
  · simp only [predDay_mk, hdd, if_true, toOrdinal_mk, valid_mk, year_mk]
    omega
  · have hdd1 : dd = 1 := by omega
    subst hdd1
    by_cases hmm : 2 ≤ m
    · have hstep := daysBeforeMonth_succ y (m - 1) (by omega)
      have hm' : m - 1 + 1 = m := by omega
      rw [hm'] at hstep
      have h28 := daysInMonth_bounds y (m - 1)
      simp only [predDay_mk, hdd, hmm, if_false, if_true, toOrdinal_mk, valid_mk, year_mk]
      omega
    · have hm1' : m = 1 := by omega
      subst hm1'
      have hy2 : 2 ≤ y := year_ge_two y hy' h2'
      have hyr := daysBeforeYear_succ (y - 1) (by omega)
      have hyy : y - 1 + 1 = y := by omega
      rw [hyy] at hyr
      have h13 := daysBeforeMonth_succ (y - 1) 12 (by omega)
      rw [daysBeforeMonth_year (y - 1)] at h13
      have hz1 : daysBeforeMonth y 1 = 0 := rfl
      have hz31 : daysInMonth (y - 1) 12 = 31 := by norm_num [daysInMonth]
      rw [hz31] at h13
      simp only [predDay_mk, hdd, hmm, if_false, toOrdinal_mk, valid_mk, year_mk]
      rw [hz31]
      split_ifs at hyr h13 <;> omega

theorem addDays_spec (d : Date) (hv : d.valid) (hy : 1 ≤ d.year) (n : Nat) :
    toOrdinal (addDays d n) = toOrdinal d + n ∧ (addDays d n).valid ∧ 1 ≤ (addDays d n).year := by
  induction n with
  | zero => exact ⟨rfl, hv, hy⟩
  | succ k ih =>
    obtain ⟨h1, h2, h3⟩ := ih
    obtain ⟨s1, s2, s3⟩ := succDay_spec _ h2 h3
    exact ⟨by simp only [addDays]; omega, s2, s3⟩

theorem subDays_spec (d : Date) (hv : d.valid) (hy : 1 ≤ d.year) :
    ∀ n, n + 1 ≤ toOrdinal d →
      toOrdinal (subDays d n) = toOrdinal d - n ∧ (subDays d n).valid ∧
        1 ≤ (subDays d n).year := by
  intro n
  induction n with
  | zero => exact fun _ => ⟨rfl, hv, hy⟩
  | succ k ih =>
    intro hn
    obtain ⟨h1, h2, h3⟩ := ih (by omega)
    obtain ⟨s1, s2, s3⟩ := predDay_spec _ h2 h3 (by omega)
    exact ⟨by simp only [subDays]; omega, s2, s3⟩

theorem succDay_predDay (d : Date) (hv : d.valid) (hy : 1 ≤ d.year) (h2 : 2 ≤ toOrdinal d) :
    succDay (predDay d) = d := by
  obtain ⟨y, m, dd⟩ := d
  obtain ⟨hm1, hm2, hd1, hd2⟩ := (valid_mk y m dd).mp hv
  have hy' : 1 ≤ y := hy
  have h2' : 2 ≤ daysBeforeYear y + daysBeforeMonth y m + dd := h2
  by_cases hdd : 2 ≤ dd
  · rw [predDay_mk, if_pos hdd, succDay_mk, if_pos (by omega : dd - 1 < daysInMonth y m)]
    simp only [Date.mk.injEq, true_and, and_true]
    omega
  · have hdd1 : dd = 1 := by omega
    subst hdd1
    by_cases hmm : 2 ≤ m
    · have h28 := daysInMonth_bounds y (m - 1)
      rw [predDay_mk, if_neg hdd, if_pos hmm, succDay_mk,
        if_neg (by omega : ¬ daysInMonth y (m - 1) < daysInMonth y (m - 1)),
        if_pos (by omega : m - 1 < 12)]
      simp only [Date.mk.injEq, true_and, and_true]
      omega
    · have hm1' : m = 1 := by omega
      subst hm1'
      have hy2 : 2 ≤ y := year_ge_two y hy' h2'
      have hz31 : daysInMonth (y - 1) 12 = 31 := by norm_num [daysInMonth]
      rw [predDay_mk, if_neg hdd, if_neg hmm, succDay_mk,
        if_neg (by omega : ¬ (31 : Nat) < daysInMonth (y - 1) 12),
        if_neg (by omega : ¬ (12 : Nat) < 12)]
      simp only [Date.mk.injEq, true_and, and_true]
      omega

theorem addDays_succDay (d : Date) (n : Nat) :
    addDays (succDay d) n = succDay (addDays d n) := by
  induction n with
  | zero => rfl
  | succ k ih => simp only [addDays, ih]

theorem subDays_predDay_comm (d : Date) (n : Nat) :
    subDays (predDay d) n = predDay (subDays d n) := by
  induction n with
  | zero => rfl
  | succ k ih => simp only [subDays, ih]

theorem addDays_add (d : Date) (a b : Nat) :
    addDays d (a + b) = addDays (addDays d a) b := by
  induction b with
  | zero => rfl
  | succ k ih =>
    show succDay (addDays d (a + k)) = succDay (addDays (addDays d a) k)
    rw [ih]

theorem addDays_subDays (d : Date) (hv : d.valid) (hy : 1 ≤ d.year) (n : Nat)
    (hn : n + 1 ≤ toOrdinal d) :
    ∀ i, i ≤ n → addDays (subDays d n) i = subDays d (n - i) := by
  intro i
  induction i with
  | zero => intro _; rfl
  | succ k ih =>
    intro hik
    have hk := ih (by omega)
    have step : n - k = (n - (k + 1)) + 1 := by omega
    obtain ⟨o1, o2, o3⟩ := subDays_spec d hv hy (n - (k + 1)) (by omega)
    calc addDays (subDays d n) (k + 1)
        = succDay (addDays (subDays d n) k) := rfl
      _ = succDay (subDays d (n - k)) := by rw [hk]
      _ = succDay (predDay (subDays d (n - (k + 1)))) := by rw [step]; rfl
      _ = subDays d (n - (k + 1)) := succDay_predDay _ o2 o3 (by omega)

theorem addDays_in_month (y m a : Nat) :
    ∀ k, a + k ≤ daysInMonth y m → addDays ⟨y, m, a⟩ k = ⟨y, m, a + k⟩ := by
  intro k
  induction k with
  | zero => intro _; rfl
  | succ j ih =>
    intro h
    have e : addDays ⟨y, m, a⟩ (j + 1) = succDay ⟨y, m, a + j⟩ := by
      simp only [addDays, ih (by omega)]
    rw [e, succDay_mk, if_pos (by omega : a + j < daysInMonth y m)]
    simp only [Date.mk.injEq, true_and, and_true]
    omega

theorem subDays_in_month (y m a : Nat) :
    ∀ j, j + 1 ≤ a → subDays ⟨y, m, a⟩ j = ⟨y, m, a - j⟩ := by
  intro j
  induction j with
  | zero => intro _; rfl
  | succ k ih =>
    intro h
    have e : subDays ⟨y, m, a⟩ (k + 1) = predDay ⟨y, m, a - k⟩ := by
      simp only [subDays, ih (by omega)]
    rw [e, predDay_mk, if_pos (by omega : 2 ≤ a - k)]
    simp only [Date.mk.injEq, true_and, and_true]
    omega

theorem predDay_first (y m : Nat) (hm1 : 1 ≤ m) :
    predDay ⟨y, m, 1⟩ =
      if m = 1 then ⟨y - 1, 12, 31⟩ else ⟨y, m - 1, daysInMonth y (m - 1)⟩ := by
  by_cases h : m = 1
  · subst h
    rw [predDay_mk, if_neg (by omega), if_neg (by omega), if_pos rfl]
  · have hmm : 2 ≤ m := by omega
    rw [predDay_mk, if_neg (by omega), if_pos hmm, if_neg h]

theorem succDay_last (y m : Nat) (hm : m ≤ 12) :
    succDay ⟨y, m, daysInMonth y m⟩ =
      if m = 12 then ⟨y + 1, 1, 1⟩ else ⟨y, m + 1, 1⟩ := by
  by_cases h : m = 12
  · subst h
    rw [succDay_mk, if_neg (by omega), if_neg (by omega), if_pos rfl]
  · have hlt : m < 12 := by omega
    rw [succDay_mk, if_neg (by omega), if_pos hlt, if_neg h]

/-! ## Grid-level lemmas about `get_iterable_days` -/

theorem toOrdinal_pos (d : Date) (hd : 1 ≤ d.day) : 1 ≤ toOrdinal d := by
  unfold toOrdinal
  omega

theorem first_day_of_month_valid (y m : Nat) (hm1 : 1 ≤ m) (hm2 : m ≤ 12) :
    (first_day_of_month y m).valid := by
  rw [first_day_of_month, valid_mk]
  have := daysInMonth_bounds y m
  omega

theorem head_days_lt_ordinal (y m : Nat) :
    head_days y m + 1 ≤ toOrdinal (first_day_of_month y m) := by
  have h1 : 1 ≤ toOrdinal (first_day_of_month y m) :=
    toOrdinal_pos _ (by exact Nat.le_refl 1)
  unfold head_days weekday
  omega

theorem head_days_le (y m : Nat) : head_days y m ≤ 6 := by
  unfold head_days weekday
  omega

theorem tail_days_le (y m : Nat) : tail_days y m ≤ 6 := by
  unfold tail_days
  omega

theorem first_cal_spec (y m : Nat) (hm1 : 1 ≤ m) (hm2 : m ≤ 12) (hy : 1 ≤ y) :
    toOrdinal (first_day_of_calendar y m) =
        toOrdinal (first_day_of_month y m) - head_days y m ∧
      (first_day_of_calendar y m).valid ∧ 1 ≤ (first_day_of_calendar y m).year :=
  subDays_spec (first_day_of_month y m) (first_day_of_month_valid y m hm1 hm2)
    (by exact hy) (head_days y m) (head_days_lt_ordinal y m)

theorem weekday_first_cal (y m : Nat) (hm1 : 1 ≤ m) (hm2 : m ≤ 12) (hy : 1 ≤ y) :
    weekday (first_day_of_calendar y m) = 0 := by
  obtain ⟨h1, _, _⟩ := first_cal_spec y m hm1 hm2 hy
  have h2 := head_days_lt_ordinal y m
  unfold weekday
  unfold head_days weekday at h1 h2
  omega

theorem weekday_cell (y m : Nat) (hm1 : 1 ≤ m) (hm2 : m ≤ 12) (hy : 1 ≤ y) (i : Nat) :
    weekday (addDays (first_day_of_calendar y m) i) = i % 7 := by
  obtain ⟨h1, h2, h3⟩ := first_cal_spec y m hm1 hm2 hy
  obtain ⟨a1, _, _⟩ := addDays_spec (first_day_of_calendar y m) h2 h3 i
  have h0 := weekday_first_cal y m hm1 hm2 hy
  unfold weekday at h0 ⊢
  omega

theorem total_facts (y m : Nat) (hm1 : 1 ≤ m) (hm2 : m ≤ 12) :
    total_days_in_calendar y m % 7 = 0 ∧ 28 ≤ total_days_in_calendar y m ∧
      total_days_in_calendar y m ≤ 42 := by
  have hdim := daysInMonth_bounds y m
  have hord : toOrdinal (last_day_of_month y m) + 1 =
      toOrdinal (first_day_of_month y m) + daysInMonth y m := by
    unfold last_day_of_month first_day_of_month
    rw [toOrdinal_mk, toOrdinal_mk]
    omega
  unfold total_days_in_calendar head_days tail_days weekday
  omega

theorem get_iterable_days_ok (y m : Nat) (hm1 : 1 ≤ m) (hm2 : m ≤ 12) :
    get_iterable_days y m =
      .ok ((List.range (total_days_in_calendar y m)).map
        (fun i => addDays (first_day_of_calendar y m) i)) := by
  unfold get_iterable_days
  rw [if_neg (by omega), if_pos (total_facts y m hm1 hm2).1]

theorem iterableDaysList_eq (y m : Nat) (hm1 : 1 ≤ m) (hm2 : m ≤ 12) :
    iterableDaysList y m =
      (List.range (total_days_in_calendar y m)).map
        (fun i => addDays (first_day_of_calendar y m) i) := by
  unfold iterableDaysList
  rw [get_iterable_days_ok y m hm1 hm2]
  rfl

theorem get_prev_next_months_eq (y m : Nat) (hm1 : 1 ≤ m) (hm2 : m ≤ 12) :
    get_prev_next_months y m =
      (if m = 1 then ⟨y - 1, 12, 1⟩ else ⟨y, m - 1, 1⟩,
       if m = 12 then ⟨y + 1, 1, 1⟩ else ⟨y, m + 1, 1⟩) := by
  by_cases h1 : m = 1
  · subst h1; rfl
  · by_cases h2 : m = 12
    · subst h2; rfl
    · have e1 : ¬ (m - 1 = 0) := by omega
      have e2 : ¬ (m + 1 = 13) := by omega
      unfold get_prev_next_months
      simp only [if_neg e1, if_neg e2, if_neg h1, if_neg h2]

theorem cell_eq_prev (y m : Nat) (hm1 : 1 ≤ m) (hm2 : m ≤ 12) (hy : 1 ≤ y)
    (i : Nat) (hi : i < head_days y m) :
    addDays (first_day_of_calendar y m) i =
      if m = 1 then ⟨y - 1, 12, 31 + i + 1 - head_days y m⟩
      else ⟨y, m - 1, daysInMonth y (m - 1) + i + 1 - head_days y m⟩ := by
  have hv := first_day_of_month_valid y m hm1 hm2
  have hord := head_days_lt_ordinal y m
  have hw6 := head_days_le y m
  have hcancel := addDays_subDays (first_day_of_month y m) hv (by exact hy)
    (head_days y m) hord i (by omega)
  rw [show addDays (first_day_of_calendar y m) i =
    subDays (first_day_of_month y m) (head_days y m - i) from hcancel]
  obtain ⟨k, hk⟩ : ∃ k, head_days y m - i = k + 1 := ⟨head_days y m - i - 1, by omega⟩
  rw [hk, show first_day_of_month y m = (⟨y, m, 1⟩ : Date) from rfl]
  rw [show subDays (⟨y, m, 1⟩ : Date) (k + 1) =
    subDays (predDay (⟨y, m, 1⟩ : Date)) k from (subDays_predDay_comm _ k).symm]
  rw [predDay_first y m hm1]
  by_cases h1 : m = 1
  · subst h1
    rw [if_pos rfl, if_pos rfl]
    rw [subDays_in_month (y - 1) 12 31 k (by omega)]
    simp only [Date.mk.injEq, true_and, and_true]
    omega
  · rw [if_neg h1, if_neg h1]
    have h28 := daysInMonth_bounds y (m - 1)
    rw [subDays_in_month y (m - 1) (daysInMonth y (m - 1)) k (by omega)]
    simp only [Date.mk.injEq, true_and, and_true]
    omega

theorem cell_eq_mid (y m : Nat) (hm1 : 1 ≤ m) (hm2 : m ≤ 12) (hy : 1 ≤ y) (i : Nat)
    (hi1 : head_days y m ≤ i) (hi2 : i < head_days y m + daysInMonth y m) :
    addDays (first_day_of_calendar y m) i = ⟨y, m, i + 1 - head_days y m⟩ := by
  have hv := first_day_of_month_valid y m hm1 hm2
  have hord := head_days_lt_ordinal y m
  have hsplit : addDays (first_day_of_calendar y m) i =
      addDays (addDays (first_day_of_calendar y m) (head_days y m)) (i - head_days y m) := by
    rw [← addDays_add]
    congr 1
    omega
  rw [hsplit]
  have hcancel := addDays_subDays (first_day_of_month y m) hv (by exact hy)
    (head_days y m) hord (head_days y m) (Nat.le_refl _)
  have hfdm : addDays (first_day_of_calendar y m) (head_days y m) = first_day_of_month y m := by
    rw [show addDays (first_day_of_calendar y m) (head_days y m) =
      subDays (first_day_of_month y m) (head_days y m - head_days y m) from hcancel,
      Nat.sub_self]
    rfl
  rw [hfdm, show first_day_of_month y m = (⟨y, m, 1⟩ : Date) from rfl,
    addDays_in_month y m 1 (i - head_days y m) (by omega)]
  simp only [Date.mk.injEq, true_and, and_true]
  omega

theorem cell_eq_next (y m : Nat) (hm1 : 1 ≤ m) (hm2 : m ≤ 12) (hy : 1 ≤ y) (i : Nat)
    (hi1 : head_days y m + daysInMonth y m ≤ i) (hi2 : i < total_days_in_calendar y m) :
    addDays (first_day_of_calendar y m) i =
      if m = 12 then ⟨y + 1, 1, i + 1 - head_days y m - daysInMonth y m⟩
      else ⟨y, m + 1, i + 1 - head_days y m - daysInMonth y m⟩ := by
  have h28 := daysInMonth_bounds y m
  have htail := tail_days_le y m
  have htot : total_days_in_calendar y m =
      head_days y m + daysInMonth y m + tail_days y m := rfl
  have hstep1 : addDays (first_day_of_calendar y m) i =
      addDays (addDays (first_day_of_calendar y m) (head_days y m + (daysInMonth y m - 1)))
        (i - head_days y m - daysInMonth y m + 1) := by
    rw [← addDays_add]
    congr 1
    omega
  rw [hstep1]
  have hmid : addDays (first_day_of_calendar y m) (head_days y m + (daysInMonth y m - 1)) =
      ⟨y, m, daysInMonth y m⟩ := by
    rw [cell_eq_mid y m hm1 hm2 hy _ (by omega) (by omega)]
    simp only [Date.mk.injEq, true_and, and_true]
    omega
  rw [hmid]
  rw [show addDays (⟨y, m, daysInMonth y m⟩ : Date) (i - head_days y m - daysInMonth y m + 1) =
    addDays (succDay ⟨y, m, daysInMonth y m⟩) (i - head_days y m - daysInMonth y m) from
      (addDays_succDay _ _).symm]
  rw [succDay_last y m hm2]
  by_cases h12 : m = 12
  · subst h12
    rw [if_pos rfl, if_pos rfl]
    have h31 : daysInMonth (y + 1) 1 = 31 := by norm_num [daysInMonth]
    rw [addDays_in_month (y + 1) 1 1 (i - head_days y 12 - daysInMonth y 12) (by omega)]
    simp only [Date.mk.injEq, true_and, and_true]
    omega
  · rw [if_neg h12, if_neg h12]
    have h28n := daysInMonth_bounds y (m + 1)
    rw [addDays_in_month y (m + 1) 1 (i - head_days y m - daysInMonth y m) (by omega)]
    simp only [Date.mk.injEq, true_and, and_true]
    omega

/-! ## Facts about the enumerated day list -/

theorem mem_days_classification (y m : Nat) (hm1 : 1 ≤ m) (hm2 : m ≤ 12) (hy : 1 ≤ y)
    (d : Date) (hd : d ∈ iterableDaysList y m) :
    (d.year = y ∧ d.month = m) ∨
    (d.year = (if m = 1 then y - 1 else y) ∧ d.month = (if m = 1 then 12 else m - 1)) ∨
    (d.year = (if m = 12 then y + 1 else y) ∧ d.month = (if m = 12 then 1 else m + 1)) := by
  rw [iterableDaysList_eq y m hm1 hm2] at hd
  obtain ⟨i, hi, rfl⟩ := List.mem_map.mp hd
  rw [List.mem_range] at hi
  by_cases h1 : i < head_days y m
  · right; left
    rw [cell_eq_prev y m hm1 hm2 hy i h1]
    by_cases hm : m = 1 <;> simp [hm]
  · by_cases h2 : i < head_days y m + daysInMonth y m
    · left
      rw [cell_eq_mid y m hm1 hm2 hy i (by omega) h2]
      exact ⟨rfl, rfl⟩
    · right; right
      rw [cell_eq_next y m hm1 hm2 hy i (by omega) hi]
      by_cases hm : m = 12 <;> simp [hm]

theorem days_count_one (y m : Nat) (hm1 : 1 ≤ m) (hm2 : m ≤ 12) (hy : 1 ≤ y)
    (dd : Nat) (h1 : 1 ≤ dd) (h2 : dd ≤ daysInMonth y m) :
    (iterableDaysList y m).count ⟨y, m, dd⟩ = 1 := by
  obtain ⟨_, hv, hyy⟩ := first_cal_spec y m hm1 hm2 hy
  rw [iterableDaysList_eq y m hm1 hm2]
  apply List.count_eq_one_of_mem
  · apply List.Nodup.map_on _ (List.nodup_range _)
    intro a _ b _ hab
    have ha := (addDays_spec (first_day_of_calendar y m) hv hyy a).1
    have hb := (addDays_spec (first_day_of_calendar y m) hv hyy b).1
    have : toOrdinal (addDays (first_day_of_calendar y m) a) =
        toOrdinal (addDays (first_day_of_calendar y m) b) := by rw [hab]
    omega
  · rw [List.mem_map]
    refine ⟨head_days y m + dd - 1, List.mem_range.mpr ?_, ?_⟩
    · have : total_days_in_calendar y m =
        head_days y m + daysInMonth y m + tail_days y m := rfl
      omega
    · rw [show head_days y m + dd - 1 = head_days y m + (dd - 1) from by omega]
      rw [cell_eq_mid y m hm1 hm2 hy _ (by omega) (by omega)]
      simp only [Date.mk.injEq, true_and, and_true]
      omega

theorem days_pairwise (y m : Nat) (hm1 : 1 ≤ m) (hm2 : m ≤ 12) (hy : 1 ≤ y) :
    (iterableDaysList y m).Pairwise (fun a b => toOrdinal a < toOrdinal b) := by
  obtain ⟨_, hv, hyy⟩ := first_cal_spec y m hm1 hm2 hy
  rw [iterableDaysList_eq y m hm1 hm2, List.pairwise_map]
  apply List.Pairwise.imp ?_ (List.pairwise_lt_range _)
  intro a b hab
  have ha := (addDays_spec (first_day_of_calendar y m) hv hyy a).1
  have hb := (addDays_spec (first_day_of_calendar y m) hv hyy b).1
  omega

theorem days_length (y m : Nat) (hm1 : 1 ≤ m) (hm2 : m ≤ 12) :
    (iterableDaysList y m).length = total_days_in_calendar y m := by
  rw [iterableDaysList_eq y m hm1 hm2]
  simp

theorem days_head (y m : Nat) (hm1 : 1 ≤ m) (hm2 : m ≤ 12) :
    (iterableDaysList y m).head? = some (first_day_of_calendar y m) := by
  rw [iterableDaysList_eq y m hm1 hm2]
  obtain ⟨t, ht⟩ : ∃ t, total_days_in_calendar y m = t + 1 :=
    ⟨total_days_in_calendar y m - 1, by have := (total_facts y m hm1 hm2).2.1; omega⟩
  rw [ht, List.range_succ_eq_map]
  rfl

theorem days_getLast (y m : Nat) (hm1 : 1 ≤ m) (hm2 : m ≤ 12) :
    (iterableDaysList y m).getLast? =
      some (addDays (first_day_of_calendar y m) (total_days_in_calendar y m - 1)) := by
  rw [iterableDaysList_eq y m hm1 hm2]
  obtain ⟨t, ht⟩ : ∃ t, total_days_in_calendar y m = t + 1 :=
    ⟨total_days_in_calendar y m - 1, by have := (total_facts y m hm1 hm2).2.1; omega⟩
  rw [ht, List.range_succ, List.map_append]
  simp [List.getLast?_concat]

theorem first_cal_le_first (y m : Nat) (hm1 : 1 ≤ m) (hm2 : m ≤ 12) (hy : 1 ≤ y) :
    toOrdinal (first_day_of_calendar y m) ≤ toOrdinal (first_day_of_month y m) := by
  obtain ⟨h1, _, _⟩ := first_cal_spec y m hm1 hm2 hy
  omega

theorem last_cell_ge_last (y m : Nat) (hm1 : 1 ≤ m) (hm2 : m ≤ 12) (hy : 1 ≤ y) :
    toOrdinal (last_day_of_month y m) ≤
      toOrdinal (addDays (first_day_of_calendar y m) (total_days_in_calendar y m - 1)) := by
  obtain ⟨h1, hv, hyy⟩ := first_cal_spec y m hm1 hm2 hy
  have ha := (addDays_spec (first_day_of_calendar y m) hv hyy
    (total_days_in_calendar y m - 1)).1
  have hord := head_days_lt_ordinal y m
  have htot : total_days_in_calendar y m =
      head_days y m + daysInMonth y m + tail_days y m := rfl
  have hlast : toOrdinal (last_day_of_month y m) + 1 =
      toOrdinal (first_day_of_month y m) + daysInMonth y m := by
    unfold last_day_of_month first_day_of_month
    rw [toOrdinal_mk, toOrdinal_mk]
    omega
  have h28 := daysInMonth_bounds y m
  omega

/-! ## The week-partitioning loop -/

theorem chunksAux_cons7 {α : Type} (n : Nat) (x0 x1 x2 x3 x4 x5 x6 : α) (l : List α) :
    chunksAux (n + 1) (x0 :: x1 :: x2 :: x3 :: x4 :: x5 :: x6 :: l) =
      [x0, x1, x2, x3, x4, x5, x6] :: chunksAux n l := rfl

theorem chunksAux_mem_length {α : Type} :
    ∀ (n : Nat) (l : List α), 7 * n ≤ l.length → ∀ c ∈ chunksAux n l, c.length = 7 := by
  intro n
  induction n with
  | zero => intro l _ c hc; simp [chunksAux] at hc
  | succ k ih =>
    intro l hl c hc
    simp only [chunksAux] at hc
    rcases List.mem_cons.mp hc with h | h
    · subst h
      rw [List.length_take]
      simp at hl ⊢
      omega
    · exact ih (l.drop 7) (by simp [List.length_drop]; omega) c h

theorem chunksAux_flatten {α : Type} :
    ∀ (n : Nat) (l : List α), l.length = 7 * n → (chunksAux n l).flatten = l := by
  intro n
  induction n with
  | zero =>
    intro l hl
    have : l = [] := List.length_eq_zero.mp (by omega)
    subst this
    rfl
  | succ k ih =>
    intro l hl
    simp only [chunksAux, List.flatten_cons]
    rw [ih (l.drop 7) (by simp [List.length_drop]; omega)]
    exact List.take_append_drop 7 l

theorem chunksAux_length {α : Type} :
    ∀ (n : Nat) (l : List α), (chunksAux n l).length = n := by
  intro n
  induction n with
  | zero => intro l; rfl
  | succ k ih => intro l; simp only [chunksAux, List.length_cons, ih]

theorem buildWeeks_cons (mk : Date → CalDay) (d : Date) (rest : List Date)
    (week : List CalDay) (acc : List (List CalDay)) :
    buildWeeks mk (d :: rest) week acc =
      if weekday d = 6 then buildWeeks mk rest [] (acc ++ [week ++ [mk d]])
      else buildWeeks mk rest (week ++ [mk d]) acc := rfl

theorem buildWeeks_chunks (mk : Date → CalDay) :
    ∀ (n : Nat) (ds : List Date), ds.length = 7 * n →
      (∀ i (h : i < ds.length), weekday (ds.get ⟨i, h⟩) = i % 7) →
      ∀ acc, buildWeeks mk ds [] acc = acc ++ chunksAux n (ds.map mk) := by
  intro n
  induction n with
  | zero =>
    intro ds hl _ acc
    have : ds = [] := List.length_eq_zero.mp (by omega)
    subst this
    simp [buildWeeks, chunksAux]
  | succ k ih =>
    intro ds hl hw acc
    rcases ds with _ | ⟨d0, _ | ⟨d1, _ | ⟨d2, _ | ⟨d3, _ | ⟨d4, _ | ⟨d5, _ | ⟨d6, rest⟩⟩⟩⟩⟩⟩⟩ <;>
      simp only [List.length_cons, List.length_nil] at hl <;> try omega
    have hrest : rest.length = 7 * k := by omega
    have w0 : weekday d0 = 0 := by simpa using hw 0 (by simp)
    have w1 : weekday d1 = 1 := by simpa using hw 1 (by simp)
    have w2 : weekday d2 = 2 := by simpa using hw 2 (by simp)
    have w3 : weekday d3 = 3 := by simpa using hw 3 (by simp)
    have w4 : weekday d4 = 4 := by simpa using hw 4 (by simp)
    have w5 : weekday d5 = 5 := by simpa using hw 5 (by simp)
    have w6 : weekday d6 = 6 := by simpa using hw 6 (by simp)
    have hw' : ∀ i (h : i < rest.length), weekday (rest.get ⟨i, h⟩) = i % 7 := by
      intro i h
      have h7 : i + 7 < (d0 :: d1 :: d2 :: d3 :: d4 :: d5 :: d6 :: rest).length := by
        simp
        omega
      have hg := hw (i + 7) h7
      have he : (d0 :: d1 :: d2 :: d3 :: d4 :: d5 :: d6 :: rest).get ⟨i + 7, h7⟩ =
          rest.get ⟨i, h⟩ := rfl
      rw [he] at hg
      rw [hg]
      omega
    rw [buildWeeks_cons, if_neg (by omega), buildWeeks_cons, if_neg (by omega),
      buildWeeks_cons, if_neg (by omega), buildWeeks_cons, if_neg (by omega),
      buildWeeks_cons, if_neg (by omega), buildWeeks_cons, if_neg (by omega),
      buildWeeks_cons, if_pos w6]
    rw [ih rest hrest hw']
    simp [chunksAux_cons7, List.append_assoc]

/-! ## Event grouping lemmas -/

theorem get_events_by_day_ok :
    ∀ items : List CalItem, (∀ e ∈ items, e.day.isSome) →
      get_events_by_day items = .ok (items.filterMap (fun e =>
        e.day.map (fun dt => (toDate dt, ⟨e.title, e.url, e.cls, dt⟩)))) := by
  intro items
  induction items with
  | nil => intro _; rfl
  | cons e rest ih =>
    intro h
    obtain ⟨dt, hdt⟩ := Option.isSome_iff_exists.mp (h e (List.mem_cons_self e rest))
    have ih' := ih (fun x hx => h x (List.mem_cons_of_mem e hx))
    simp only [get_events_by_day, hdt, ih', List.filterMap_cons, Option.map_some']
    rfl

theorem get_events_by_day_err :
    ∀ items : List CalItem, (∃ e ∈ items, e.day = none) →
      get_events_by_day items = .error .invalidEvent := by
  intro items
  induction items with
  | nil =>
    intro ⟨e, he, _⟩
    exact absurd he (List.not_mem_nil e)
  | cons e rest ih =>
    intro ⟨x, hx, hxd⟩
    cases hdt : e.day with
    | none => simp [get_events_by_day, hdt]
    | some dt =>
      have hxr : x ∈ rest := by
        rcases List.mem_cons.mp hx with rfl | h
        · rw [hdt] at hxd
          exact absurd hxd (by simp)
        · exact h
      simp only [get_events_by_day, hdt, ih ⟨x, hxr, hxd⟩]
      rfl

theorem lookupDay_cons (p : Date × GEvent) (l : List (Date × GEvent)) (d : Date) :
    lookupDay (p :: l) d = if p.1 = d then p.2 :: lookupDay l d else lookupDay l d := by
  unfold lookupDay
  by_cases h : p.1 = d
  · simp [List.filter_cons, h]
  · simp [List.filter_cons, h]

theorem lookupDay_append (a b : List (Date × GEvent)) (d : Date) :
    lookupDay (a ++ b) d = lookupDay a d ++ lookupDay b d := by
  unfold lookupDay
  rw [List.filter_append, List.map_append]

theorem lookupDay_keyed (items : List CalItem) (d : Date) :
    lookupDay (items.filterMap (fun e =>
        e.day.map (fun dt => (toDate dt, ⟨e.title, e.url, e.cls, dt⟩)))) d =
      items.filterMap (fun e => e.day.bind (fun dt =>
        if toDate dt = d then some ⟨e.title, e.url, e.cls, dt⟩ else none)) := by
  induction items with
  | nil => rfl
  | cons e rest ih =>
    cases hdt : e.day with
    | none => simp [List.filterMap_cons, hdt, ih]
    | some dt =>
      simp only [List.filterMap_cons, hdt, Option.map_some']
      by_cases h : toDate dt = d
      · simp [lookupDay_cons, h, ih]
      · simp [lookupDay_cons, h, ih]

/-! ## The assembled `gencal` result -/

theorem gencal_ok (date : Date) (items : List CalItem) (keyed : List (Date × GEvent))
    (hm1 : 1 ≤ date.month) (hm2 : date.month ≤ 12)
    (hev : get_events_by_day items = .ok keyed) :
    gencal date items = .ok
      ⟨buildWeeks (fun day => ⟨day, lookupDay keyed day, day.month == date.month⟩)
        (iterableDaysList date.year date.month) [] [],
       week_headers, date,
       (get_prev_next_months date.year date.month).1,
       (get_prev_next_months date.year date.month).2⟩ := by
  unfold gencal
  rw [hev, get_iterable_days_ok date.year date.month hm1 hm2,
    ← iterableDaysList_eq date.year date.month hm1 hm2]
  rfl

theorem gencal_err_event (date : Date) (items : List CalItem)
    (h : ∃ e ∈ items, e.day = none) :
    gencal date items = .error .invalidEvent := by
  unfold gencal
  rw [get_events_by_day_err items h]
  rfl

theorem month_cal_eq (y m : Nat) (hm1 : 1 ≤ m) (hm2 : m ≤ 12) (hy : 1 ≤ y)
    (mk : Date → CalDay) :
    buildWeeks mk (iterableDaysList y m) [] [] =
      chunksAux (total_days_in_calendar y m / 7) ((iterableDaysList y m).map mk) := by
  have h7 := (total_facts y m hm1 hm2).1
  have hlen : (iterableDaysList y m).length = 7 * (total_days_in_calendar y m / 7) := by
    rw [days_length y m hm1 hm2]
    omega
  have hwk : ∀ i (h : i < (iterableDaysList y m).length),
      weekday ((iterableDaysList y m).get ⟨i, h⟩) = i % 7 := by
    intro i
    rw [iterableDaysList_eq y m hm1 hm2]
    intro h
    rw [List.get_map, List.get_range]
    exact weekday_cell y m hm1 hm2 hy i
  simpa using buildWeeks_chunks mk (total_days_in_calendar y m / 7)
    (iterableDaysList y m) hlen hwk []

theorem buildWeeks_congr (f g : Date → CalDay) :
    ∀ (ds : List Date), (∀ d ∈ ds, f d = g d) →
      ∀ week acc, buildWeeks f ds week acc = buildWeeks g ds week acc := by
  intro ds
  induction ds with
  | nil => intro _ week acc; rfl
  | cons d rest ih =>
    intro h week acc
    rw [buildWeeks_cons, buildWeeks_cons, h d (List.mem_cons_self d rest)]
    by_cases hw : weekday d = 6
    · rw [if_pos hw, if_pos hw, ih (fun x hx => h x (List.mem_cons_of_mem d hx))]
    · rw [if_neg hw, if_neg hw, ih (fun x hx => h x (List.mem_cons_of_mem d hx))]

theorem get_iterable_days_eq_ok (y m : Nat) (hm1 : 1 ≤ m) (hm2 : m ≤ 12) :
    get_iterable_days y m = .ok (iterableDaysList y m) := by
  rw [get_iterable_days_ok y m hm1 hm2, iterableDaysList_eq y m hm1 hm2]

theorem get_iterable_days_ok_inv (y m : Nat) (days : List Date)
    (h : get_iterable_days y m = .ok days) :
    1 ≤ m ∧ m ≤ 12 ∧ days = iterableDaysList y m := by
  by_cases hm : m < 1 ∨ 12 < m
  · rw [show get_iterable_days y m = .error .invalidDate from by
      unfold get_iterable_days; rw [if_pos hm]] at h
    simp at h
  · have hm1 : 1 ≤ m := by omega
    have hm2 : m ≤ 12 := by omega
    rw [get_iterable_days_eq_ok y m hm1 hm2] at h
    injection h with h
    exact ⟨hm1, hm2, h.symm⟩

theorem get_events_by_day_ok_inv (items : List CalItem) (keyed : List (Date × GEvent))
    (h : get_events_by_day items = .ok keyed) :
    (∀ e ∈ items, e.day.isSome) ∧
      keyed = items.filterMap (fun e =>
        e.day.map (fun dt => (toDate dt, ⟨e.title, e.url, e.cls, dt⟩))) := by
  by_cases hbad : ∃ e ∈ items, e.day = none
  · rw [get_events_by_day_err items hbad] at h
    simp at h
  · push_neg at hbad
    have hsome : ∀ e ∈ items, e.day.isSome := by
      intro x hx
      cases hd : x.day with
      | none => exact absurd hd (hbad x hx)
      | some _ => rfl
    rw [get_events_by_day_ok items hsome] at h
    injection h with h
    exact ⟨hsome, h.symm⟩

theorem gencal_ok_inv (date : Date) (items : List CalItem) (res : GencalResult)
    (h : gencal date items = .ok res) :
    ∃ keyed days, get_events_by_day items = .ok keyed ∧
      get_iterable_days date.year date.month = .ok days ∧
      res = ⟨buildWeeks (fun day => ⟨day, lookupDay keyed day, day.month == date.month⟩)
               days [] [],
             week_headers, date,
             (get_prev_next_months date.year date.month).1,
             (get_prev_next_months date.year date.month).2⟩ := by
  unfold gencal at h
  cases hev : get_events_by_day items with
  | error err =>
    rw [hev] at h
    have h2 : (Except.error err : Except GencalError GencalResult) = .ok res := h
    simp at h2
  | ok keyed =>
    rw [hev] at h
    cases hid : get_iterable_days date.year date.month with
    | error err =>
      rw [hid] at h
      have h2 : (Except.error err : Except GencalError GencalResult) = .ok res := h
      simp at h2
    | ok days =>
      rw [hid] at h
      have h2 : Except.ok
          (⟨buildWeeks (fun day => ⟨day, lookupDay keyed day, day.month == date.month⟩)
              days [] [],
            week_headers, date,
            (get_prev_next_months date.year date.month).1,
            (get_prev_next_months date.year date.month).2⟩ : GencalResult) = .ok res := h
      injection h2 with h2
      exact ⟨keyed, days, rfl, rfl, h2.symm⟩

theorem mem_flatten_buildWeeks (mk : Date → CalDay) :
    ∀ (ds : List Date) (week : List CalDay) (acc : List (List CalDay)) (c : CalDay),
      c ∈ (buildWeeks mk ds week acc).flatten →
      c ∈ acc.flatten ∨ c ∈ week ∨ ∃ d ∈ ds, c = mk d := by
  intro ds
  induction ds with
  | nil =>
    intro week acc c hc
    left
    exact hc
  | cons d rest ih =>
    intro week acc c hc
    rw [buildWeeks_cons] at hc
    by_cases hw : weekday d = 6
    · rw [if_pos hw] at hc
      rcases ih [] (acc ++ [week ++ [mk d]]) c hc with h | h | h
      · rw [List.flatten_append] at h
        rcases List.mem_append.mp h with h | h
        · left; exact h
        · simp only [List.flatten_cons, List.flatten_nil, List.append_nil] at h
          rcases List.mem_append.mp h with h | h
          · right; left; exact h
          · right; right
            exact ⟨d, List.mem_cons_self d rest, by simpa using h⟩
      · simp at h
      · obtain ⟨d', hd', rfl⟩ := h
        right; right
        exact ⟨d', List.mem_cons_of_mem d hd', rfl⟩
    · rw [if_neg hw] at hc
      rcases ih (week ++ [mk d]) acc c hc with h | h | h
      · left; exact h
      · rcases List.mem_append.mp h with h | h
        · right; left; exact h
        · right; right
          exact ⟨d, List.mem_cons_self d rest, by simpa using h⟩
      · obtain ⟨d', hd', rfl⟩ := h
        right; right
        exact ⟨d', List.mem_cons_of_mem d hd', rfl⟩

theorem gencal_flatten (y m : Nat) (hm1 : 1 ≤ m) (hm2 : m ≤ 12) (hy : 1 ≤ y)
    (mk : Date → CalDay) :
    (buildWeeks mk (iterableDaysList y m) [] []).flatten = (iterableDaysList y m).map mk := by
  rw [month_cal_eq y m hm1 hm2 hy mk]
  apply chunksAux_flatten
  rw [List.length_map, days_length y m hm1 hm2]
  have := (total_facts y m hm1 hm2).1
  omega

theorem calday_day_mk (d : Date) (ev : List GEvent) (b : Bool) :
    (CalDay.mk d ev b).day = d := rfl

theorem calday_event_mk (d : Date) (ev : List GEvent) (b : Bool) :
    (CalDay.mk d ev b).event = ev := rfl

theorem calday_flag_mk (d : Date) (ev : List GEvent) (b : Bool) :
    (CalDay.mk d ev b).in_month = b := rfl

theorem anchors_proj (y m : Nat) (hm1 : 1 ≤ m) (hm2 : m ≤ 12) :
    (get_prev_next_months y m).1.year = (if m = 1 then y - 1 else y) ∧
    (get_prev_next_months y m).1.month = (if m = 1 then 12 else m - 1) ∧
    (get_prev_next_months y m).2.year = (if m = 12 then y + 1 else y) ∧
    (get_prev_next_months y m).2.month = (if m = 12 then 1 else m + 1) := by
  rw [get_prev_next_months_eq y m hm1 hm2]
  by_cases h1 : m = 1
  · simp [h1]
  · by_cases h12 : m = 12
    · simp [h1, h12]
    · simp [h1, h12]

theorem gencal_ok_flatten (date : Date) (items : List CalItem)
    (hy : 1 ≤ date.year) (hm1 : 1 ≤ date.month) (hm2 : date.month ≤ 12)
    (hitems : ∀ e ∈ items, e.day.isSome) :
    ∃ res, gencal date items = .ok res ∧
      res.month_cal.flatten = (iterableDaysList date.year date.month).map
        (fun day => ⟨day,
          lookupDay (items.filterMap (fun e =>
            e.day.map (fun dt => (toDate dt, ⟨e.title, e.url, e.cls, dt⟩)))) day,
          day.month == date.month⟩) := by
  refine ⟨_, gencal_ok date items _ hm1 hm2 (get_events_by_day_ok items hitems), ?_⟩
  exact gencal_flatten date.year date.month hm1 hm2 hy _

/-! ## The claims -/

/-- C2: for every valid (year, month) the flat cell count — leading pad +
days in month + trailing pad — is a multiple of 7 and lies in [28, 42], so
the `assert total_days_in_calendar % 7 == 0` in `get_iterable_days` never
fires for a valid input. -/
theorem gencal_total_divisible (y m : Nat) (hm1 : 1 ≤ m) (hm2 : m ≤ 12) :
    ∃ days, get_iterable_days y m = .ok days ∧
      days.length = head_days y m + daysInMonth y m + tail_days y m ∧
      days.length % 7 = 0 ∧ 28 ≤ days.length ∧ days.length ≤ 42 ∧
      get_iterable_days y m ≠ .error .assertionFailed := by
  obtain ⟨h7, h28, h42⟩ := total_facts y m hm1 hm2
  refine ⟨iterableDaysList y m, get_iterable_days_eq_ok y m hm1 hm2, ?_, ?_, ?_, ?_, ?_⟩
  · rw [days_length y m hm1 hm2]; rfl
  · rw [days_length y m hm1 hm2]; exact h7
  · rw [days_length y m hm1 hm2]; exact h28
  · rw [days_length y m hm1 hm2]; exact h42
  · rw [get_iterable_days_eq_ok y m hm1 hm2]; simp

/-- Witness for C2 at year 2023, month 2. -/
theorem gencal_total_divisible_witness :
    ((1 : Nat) ≤ 2 ∧ (2 : Nat) ≤ 12) ∧
    (∃ days, get_iterable_days 2023 2 = .ok days ∧
      days.length = head_days 2023 2 + daysInMonth 2023 2 + tail_days 2023 2 ∧
      days.length % 7 = 0 ∧ 28 ≤ days.length ∧ days.length ≤ 42 ∧
      get_iterable_days 2023 2 ≠ .error .assertionFailed) :=
  ⟨by decide, gencal_total_divisible 2023 2 (by decide) (by decide)⟩

/-- C4: `get_prev_next_months` returns the 1st of month-1 and the 1st of
month+1, with year rollover at month 1 (previous = December of year-1) and
month 12 (next = January of year+1), the year unchanged otherwise. -/
theorem gencal_prev_next_anchors (y m : Nat) (hm1 : 1 ≤ m) (hm2 : m ≤ 12) :
    get_prev_next_months y m =
      (if m = 1 then ⟨y - 1, 12, 1⟩ else ⟨y, m - 1, 1⟩,
       if m = 12 then ⟨y + 1, 1, 1⟩ else ⟨y, m + 1, 1⟩) ∧
    (m = 1 → (get_prev_next_months y m).1 = ⟨y - 1, 12, 1⟩) ∧
    (m ≠ 1 → (get_prev_next_months y m).1 = ⟨y, m - 1, 1⟩) ∧
    (m = 12 → (get_prev_next_months y m).2 = ⟨y + 1, 1, 1⟩) ∧
    (m ≠ 12 → (get_prev_next_months y m).2 = ⟨y, m + 1, 1⟩) := by
  have he := get_prev_next_months_eq y m hm1 hm2
  refine ⟨he, ?_, ?_, ?_, ?_⟩
  · intro h; rw [he]; simp [h]
  · intro h; rw [he]; simp [h]
  · intro h; rw [he]
    by_cases h1 : m = 1
    · simp [h1] at h ⊢
    · simp [h1, h]
  · intro h; rw [he]
    by_cases h1 : m = 1
    · simp [h1]
    · simp [h1, h]

/-- Witness for C4 at year 2024, month 1. -/
theorem gencal_prev_next_anchors_witness :
    ((1 : Nat) ≤ 1 ∧ (1 : Nat) ≤ 12) ∧
    (get_prev_next_months 2024 1 =
      (if 1 = 1 then ⟨2024 - 1, 12, 1⟩ else ⟨2024, 1 - 1, 1⟩,
       if 1 = 12 then ⟨2024 + 1, 1, 1⟩ else ⟨2024, 1 + 1, 1⟩) ∧
    ((1 : Nat) = 1 → (get_prev_next_months 2024 1).1 = ⟨2024 - 1, 12, 1⟩) ∧
    ((1 : Nat) ≠ 1 → (get_prev_next_months 2024 1).1 = ⟨2024, 1 - 1, 1⟩) ∧
    ((1 : Nat) = 12 → (get_prev_next_months 2024 1).2 = ⟨2024 + 1, 1, 1⟩) ∧
    ((1 : Nat) ≠ 12 → (get_prev_next_months 2024 1).2 = ⟨2024, 1 + 1, 1⟩)) :=
  ⟨by decide, gencal_prev_next_anchors 2024 1 (by decide) (by decide)⟩

/-- C7: February 2008 (leap year, 29 days, starting on a Friday) produces
exactly 5 weeks of 7 cells (35 cells); the unique cell dated 2008-02-01 has
`in_month = true`, and the unique cell dated 2008-01-28 (the Monday before)
has `in_month = false`. -/
theorem gencal_feb2008 :
    (gencal ⟨2008, 2, 1⟩ []).toOption.map (fun r =>
      (r.month_cal.length, r.month_cal.flatten.length,
       (r.month_cal.flatten.filter (fun c => decide (c.day = ⟨2008, 2, 1⟩))).map
         (fun c => c.in_month),
       (r.month_cal.flatten.filter (fun c => decide (c.day = ⟨2008, 1, 28⟩))).map
         (fun c => c.in_month))) =
      some (5, 35, [true], [false]) := by
  decide

/-- C8 counterexample: with month 0 and a malformed event in the list, the
build fails with `invalidEvent`, not `invalidDate`, because
`get_events_by_day` runs before the month is ever validated. -/
theorem gencal_invalid_month_counterexample :
    gencal ⟨2024, 0, 1⟩ [{ day := none, title := "x", url := none, cls := "" }] =
        .error .invalidEvent ∧
      gencal ⟨2024, 0, 1⟩ [{ day := none, title := "x", url := none, cls := "" }] ≠
        .error .invalidDate := by
  refine ⟨rfl, ?_⟩
  intro h
  have h2 : (Except.error GencalError.invalidEvent : Except GencalError GencalResult) =
      .error .invalidDate := h
  simp at h2

/-- C8 (amended): for every month outside 1..12, if every event has a
parseable `day` the build fails with `InvalidDateError`; and in all cases no
result is returned for such a month. -/
theorem gencal_invalid_month (date : Date) (items : List CalItem)
    (hm : date.month < 1 ∨ 12 < date.month) :
    ((∀ e ∈ items, e.day.isSome) → gencal date items = .error .invalidDate) ∧
    (∀ res, gencal date items ≠ .ok res) := by
  constructor
  · intro hitems
    unfold gencal
    rw [get_events_by_day_ok items hitems]
    unfold get_iterable_days
    rw [if_pos hm]
    rfl
  · intro res
    cases hev : get_events_by_day items with
    | error err =>
      have h1 : gencal date items = .error err := by
        unfold gencal
        rw [hev]
        rfl
      rw [h1]
      simp
    | ok keyed =>
      have h1 : gencal date items = .error .invalidDate := by
        unfold gencal
        rw [hev]
        unfold get_iterable_days
        rw [if_pos hm]
        rfl
      rw [h1]
      simp

/-- Witness for C8 (amended) at month 13. -/
theorem gencal_invalid_month_witness :
    gencal ⟨2024, 13, 1⟩ [] = .error .invalidDate :=
  (gencal_invalid_month ⟨2024, 13, 1⟩ [] (by decide)).1 (by simp)

/-- C3: the first enumerated cell falls on a Monday (weekday 0 via
subtraction of `first_of_month.weekday()`), the last on a Sunday (weekday 6
via adding `6 - last_of_month.weekday()`), and every week row of the
produced grid has exactly 7 cells. -/
theorem gencal_weekday_alignment (date : Date) (items : List CalItem)
    (hy : 1 ≤ date.year) (hm1 : 1 ≤ date.month) (hm2 : date.month ≤ 12)
    (hitems : ∀ e ∈ items, e.day.isSome) :
    ∃ days res, get_iterable_days date.year date.month = .ok days ∧
      gencal date items = .ok res ∧ days ≠ [] ∧
      (∀ c, days.head? = some c → weekday c = 0) ∧
      (∀ c, days.getLast? = some c → weekday c = 6) ∧
      ∀ w ∈ res.month_cal, w.length = 7 := by
  refine ⟨iterableDaysList date.year date.month, _,
    get_iterable_days_eq_ok date.year date.month hm1 hm2,
    gencal_ok date items _ hm1 hm2 (get_events_by_day_ok items hitems), ?_, ?_, ?_, ?_⟩
  · have hl := days_length date.year date.month hm1 hm2
    have h28 := (total_facts date.year date.month hm1 hm2).2.1
    intro hnil
    rw [hnil] at hl
    simp at hl
    omega
  · intro c hc
    rw [days_head date.year date.month hm1 hm2] at hc
    injection hc with hc
    subst hc
    exact weekday_first_cal date.year date.month hm1 hm2 hy
  · intro c hc
    rw [days_getLast date.year date.month hm1 hm2] at hc
    injection hc with hc
    subst hc
    rw [weekday_cell date.year date.month hm1 hm2 hy]
    have h7 := (total_facts date.year date.month hm1 hm2).1
    have h28 := (total_facts date.year date.month hm1 hm2).2.1
    omega
  · intro w hw
    have hw' : w ∈ chunksAux (total_days_in_calendar date.year date.month / 7)
        ((iterableDaysList date.year date.month).map
          (fun day => ⟨day,
            lookupDay (items.filterMap (fun e =>
              e.day.map (fun dt => (toDate dt, ⟨e.title, e.url, e.cls, dt⟩)))) day,
            day.month == date.month⟩)) := by
      rw [← month_cal_eq date.year date.month hm1 hm2 hy]
      exact hw
    refine chunksAux_mem_length _ _ ?_ w hw'
    rw [List.length_map, days_length date.year date.month hm1 hm2]
    have h7 := (total_facts date.year date.month hm1 hm2).1
    omega

/-- Witness for C3 at May 2024 with no events. -/
theorem gencal_weekday_alignment_witness :
    ∃ days res, get_iterable_days 2024 5 = .ok days ∧
      gencal ⟨2024, 5, 1⟩ [] = .ok res ∧ days ≠ [] ∧
      (∀ c, days.head? = some c → weekday c = 0) ∧
      (∀ c, days.getLast? = some c → weekday c = 6) ∧
      ∀ w ∈ res.month_cal, w.length = 7 :=
  gencal_weekday_alignment ⟨2024, 5, 1⟩ [] (by decide) (by decide) (by decide) (by simp)

/-- C5: a cell's `in_month` flag is true iff the cell's date has the same
month number as the requested month, and every cell whose date is not in the
requested (year, month) — in particular adjacent-month padding — has
`in_month = false`. -/
theorem gencal_in_month_iff (date : Date) (items : List CalItem)
    (hy : 1 ≤ date.year) (hm1 : 1 ≤ date.month) (hm2 : date.month ≤ 12)
    (hitems : ∀ e ∈ items, e.day.isSome) :
    ∃ res, gencal date items = .ok res ∧
      ∀ c ∈ res.month_cal.flatten,
        (c.in_month = true ↔ c.day.month = date.month) ∧
        (c.day.year ≠ date.year ∨ c.day.month ≠ date.month → c.in_month = false) := by
  obtain ⟨res, hok, hflat⟩ := gencal_ok_flatten date items hy hm1 hm2 hitems
  refine ⟨res, hok, ?_⟩
  intro c hc
  rw [hflat] at hc
  obtain ⟨d, hd, rfl⟩ := List.mem_map.mp hc
  constructor
  · simp only [calday_flag_mk, calday_day_mk]
    exact beq_iff_eq
  · intro hne
    simp only [calday_flag_mk, calday_day_mk] at hne ⊢
    rw [beq_eq_false_iff_ne]
    intro heq
    have hclass := mem_days_classification date.year date.month hm1 hm2 hy d hd
    rcases hclass with ⟨hy', hm'⟩ | ⟨hy', hm'⟩ | ⟨hy', hm'⟩
    · rcases hne with h | h
      · exact h hy'
      · exact h hm'
    · by_cases h1 : date.month = 1
      · rw [if_pos h1] at hm'
        omega
      · rw [if_neg h1] at hm'
        omega
    · by_cases h12 : date.month = 12
      · rw [if_pos h12] at hm'
        omega
      · rw [if_neg h12] at hm'
        omega

/-- Witness for C5 at February 2008 with no events. -/
theorem gencal_in_month_iff_witness :
    ∃ res, gencal ⟨2008, 2, 1⟩ [] = .ok res ∧
      ∀ c ∈ res.month_cal.flatten,
        (c.in_month = true ↔ c.day.month = 2) ∧
        (c.day.year ≠ 2008 ∨ c.day.month ≠ 2 → c.in_month = false) :=
  gencal_in_month_iff ⟨2008, 2, 1⟩ [] (by decide) (by decide) (by decide) (by simp)

/-- C6: each cell's event list is exactly the input events whose `day`
coerced to a calendar date (dropping any time of day) equals the cell's
date, in input order, with the original time-bearing `day` value preserved
in the `timestamp` field. -/
theorem gencal_event_grouping (date : Date) (items : List CalItem)
    (hy : 1 ≤ date.year) (hm1 : 1 ≤ date.month) (hm2 : date.month ≤ 12)
    (hitems : ∀ e ∈ items, e.day.isSome) :
    ∃ res, gencal date items = .ok res ∧
      ∀ c ∈ res.month_cal.flatten,
        c.event = items.filterMap (fun e => e.day.bind (fun dt =>
          if toDate dt = c.day then some ⟨e.title, e.url, e.cls, dt⟩ else none)) := by
  obtain ⟨res, hok, hflat⟩ := gencal_ok_flatten date items hy hm1 hm2 hitems
  refine ⟨res, hok, ?_⟩
  intro c hc
  rw [hflat] at hc
  obtain ⟨d, hd, rfl⟩ := List.mem_map.mp hc
  simp only [calday_event_mk, calday_day_mk]
  exact lookupDay_keyed items d

/-- Witness for C6: a "Concert" event dated 2008-01-30 at 14:00 in a
January 2008 calendar. -/
theorem gencal_event_grouping_witness :
    ∃ res, gencal ⟨2008, 1, 1⟩
        [{ day := some ⟨2008, 1, 30, 14, 0⟩, title := "Concert",
           url := some "/foo/2", cls := "concert" }] = .ok res ∧
      ∀ c ∈ res.month_cal.flatten,
        c.event = [({ day := some ⟨2008, 1, 30, 14, 0⟩, title := "Concert",
                      url := some "/foo/2", cls := "concert" } : CalItem)].filterMap
          (fun e => e.day.bind (fun dt =>
            if toDate dt = c.day then some ⟨e.title, e.url, e.cls, dt⟩ else none)) :=
  gencal_event_grouping ⟨2008, 1, 1⟩ _ (by decide) (by decide) (by decide) (by decide)

/-- C1: the produced cells, in order, are exactly the enumerated day list;
the first cell's date is ≤ the 1st of the month and the last cell's date is
≥ the last day of the month; every date of the target month appears exactly
once; the dates are strictly increasing; and every cell's date lies in the
target month or in one of the two adjacent anchor months. -/
theorem gencal_covers_month (date : Date) (items : List CalItem)
    (hy : 1 ≤ date.year) (hm1 : 1 ≤ date.month) (hm2 : date.month ≤ 12)
    (hitems : ∀ e ∈ items, e.day.isSome) :
    ∃ res, gencal date items = .ok res ∧
      res.month_cal.flatten.map (fun c => c.day) = iterableDaysList date.year date.month ∧
      (∀ c, (iterableDaysList date.year date.month).head? = some c →
        toOrdinal c ≤ toOrdinal ⟨date.year, date.month, 1⟩) ∧
      (∀ c, (iterableDaysList date.year date.month).getLast? = some c →
        toOrdinal ⟨date.year, date.month, daysInMonth date.year date.month⟩ ≤ toOrdinal c) ∧
      (∀ dd, 1 ≤ dd → dd ≤ daysInMonth date.year date.month →
        (iterableDaysList date.year date.month).count ⟨date.year, date.month, dd⟩ = 1) ∧
      (iterableDaysList date.year date.month).Pairwise (fun a b => toOrdinal a < toOrdinal b) ∧
      ∀ d ∈ iterableDaysList date.year date.month,
        (d.year = date.year ∧ d.month = date.month) ∨
        (d.year = (get_prev_next_months date.year date.month).1.year ∧
          d.month = (get_prev_next_months date.year date.month).1.month) ∨
        (d.year = (get_prev_next_months date.year date.month).2.year ∧
          d.month = (get_prev_next_months date.year date.month).2.month) := by
  obtain ⟨res, hok, hflat⟩ := gencal_ok_flatten date items hy hm1 hm2 hitems
  obtain ⟨p1, p2, p3, p4⟩ := anchors_proj date.year date.month hm1 hm2
  refine ⟨res, hok, ?_, ?_, ?_, ?_, ?_, ?_⟩
  · rw [hflat, List.map_map]
    exact List.map_id'' (fun d => rfl) _
  · intro c hc
    rw [days_head date.year date.month hm1 hm2] at hc
    injection hc with hc
    subst hc
    exact first_cal_le_first date.year date.month hm1 hm2 hy
  · intro c hc
    rw [days_getLast date.year date.month hm1 hm2] at hc
    injection hc with hc
    subst hc
    exact last_cell_ge_last date.year date.month hm1 hm2 hy
  · intro dd h1 h2
    exact days_count_one date.year date.month hm1 hm2 hy dd h1 h2
  · exact days_pairwise date.year date.month hm1 hm2 hy
  · intro d hd
    rw [p1, p2, p3, p4]
    exact mem_days_classification date.year date.month hm1 hm2 hy d hd

/-- Witness for C1 at May 2024 with no events. -/
theorem gencal_covers_month_witness :
    ∃ res, gencal ⟨2024, 5, 1⟩ [] = .ok res ∧
      res.month_cal.flatten.map (fun c => c.day) = iterableDaysList 2024 5 ∧
      (∀ c, (iterableDaysList 2024 5).head? = some c →
        toOrdinal c ≤ toOrdinal ⟨2024, 5, 1⟩) ∧
      (∀ c, (iterableDaysList 2024 5).getLast? = some c →
        toOrdinal ⟨2024, 5, daysInMonth 2024 5⟩ ≤ toOrdinal c) ∧
      (∀ dd, 1 ≤ dd → dd ≤ daysInMonth 2024 5 →
        (iterableDaysList 2024 5).count ⟨2024, 5, dd⟩ = 1) ∧
      (iterableDaysList 2024 5).Pairwise (fun a b => toOrdinal a < toOrdinal b) ∧
      ∀ d ∈ iterableDaysList 2024 5,
        (d.year = 2024 ∧ d.month = 5) ∨
        (d.year = (get_prev_next_months 2024 5).1.year ∧
          d.month = (get_prev_next_months 2024 5).1.month) ∨
        (d.year = (get_prev_next_months 2024 5).2.year ∧
          d.month = (get_prev_next_months 2024 5).2.month) :=
  gencal_covers_month ⟨2024, 5, 1⟩ [] (by decide) (by decide) (by decide) (by simp)

/-- C9 counterexample: a well-formed event dated 2008-06-15 in a February
2008 calendar: the build succeeds (`some …`), yet no cell of the grid holds
any event — the input event does not appear in the output, refuting "for
every input on which the build succeeds, every input event appears in the
output". -/
theorem gencal_succeeds_without_event :
    (gencal ⟨2008, 2, 1⟩ [{ day := some ⟨2008, 6, 15, 0, 0⟩, title := "t",
                            url := none, cls := "" }]).toOption.map
      (fun r => (r.month_cal.flatten.map (fun c => c.event.length)).sum) = some 0 := by
  decide

/-- C9 (amended): an event with a missing `day` makes the build fail with
`InvalidEventError` (malformed events are never silently dropped); and on
every successful build, every input event whose date lies on some cell of
the grid appears in that cell's event list. -/
theorem gencal_event_propagation (date : Date) (items : List CalItem) :
    ((∃ e ∈ items, e.day = none) → gencal date items = .error .invalidEvent) ∧
    (∀ res, gencal date items = .ok res → ∀ e ∈ items, ∀ dt, e.day = some dt →
      ∀ c ∈ res.month_cal.flatten, c.day = toDate dt →
        (⟨e.title, e.url, e.cls, dt⟩ : GEvent) ∈ c.event) := by
  constructor
  · exact gencal_err_event date items
  · intro res hok e he dt hdt c hc hcd
    obtain ⟨keyed, days, hev, hid, hres⟩ := gencal_ok_inv date items res hok
    obtain ⟨hsome, hkeyed⟩ := get_events_by_day_ok_inv items keyed hev
    subst hres
    have hc' : c ∈ (buildWeeks
        (fun day => ⟨day, lookupDay keyed day, day.month == date.month⟩) days [] []).flatten :=
      hc
    rcases mem_flatten_buildWeeks _ days [] [] c hc' with h | h | h
    · simp at h
    · simp at h
    · obtain ⟨d, hd, rfl⟩ := h
      simp only [calday_event_mk, calday_day_mk] at hcd ⊢
      subst hkeyed
      rw [lookupDay_keyed items d]
      apply List.mem_filterMap.mpr
      refine ⟨e, he, ?_⟩
      rw [hdt]
      simp [hcd]

/-- Witness for C9 (amended): a single event with a missing day makes the
build fail with `invalidEvent`. -/
theorem gencal_event_propagation_witness :
    gencal ⟨2024, 5, 1⟩ [{ day := none, title := "x", url := none, cls := "" }] =
      .error .invalidEvent :=
  (gencal_event_propagation ⟨2024, 5, 1⟩ _).1
    ⟨{ day := none, title := "x", url := none, cls := "" }, by simp, rfl⟩

/-- C10: a well-formed event whose date lies outside the enumerated grid
range causes no error and appears in no cell: the result with the event is
identical to the result without it. -/
theorem gencal_ignores_outside_event (date : Date) (l1 l2 : List CalItem) (e : CalItem)
    (dt : DateTime) (hm1 : 1 ≤ date.month) (hm2 : date.month ≤ 12) (hdt : e.day = some dt)
    (hout : toDate dt ∉ iterableDaysList date.year date.month) :
    gencal date (l1 ++ e :: l2) = gencal date (l1 ++ l2) := by
  by_cases hbad : ∃ x ∈ l1 ++ l2, x.day = none
  · obtain ⟨x, hx, hxd⟩ := hbad
    have hx' : x ∈ l1 ++ e :: l2 := by
      rcases List.mem_append.mp hx with h | h
      · exact List.mem_append.mpr (Or.inl h)
      · exact List.mem_append.mpr (Or.inr (List.mem_cons_of_mem e h))
    rw [gencal_err_event date _ ⟨x, hx', hxd⟩, gencal_err_event date _ ⟨x, hx, hxd⟩]
  · push_neg at hbad
    have hsome : ∀ x ∈ l1 ++ l2, x.day.isSome := by
      intro x hx
      cases hxo : x.day with
      | none => exact absurd hxo (hbad x hx)
      | some _ => rfl
    have hsome' : ∀ x ∈ l1 ++ e :: l2, x.day.isSome := by
      intro x hx
      rcases List.mem_append.mp hx with h | h
      · exact hsome x (List.mem_append.mpr (Or.inl h))
      · rcases List.mem_cons.mp h with rfl | h
        · rw [hdt]; rfl
        · exact hsome x (List.mem_append.mpr (Or.inr h))
    rw [gencal_ok date _ _ hm1 hm2 (get_events_by_day_ok _ hsome'),
      gencal_ok date _ _ hm1 hm2 (get_events_by_day_ok _ hsome)]
    have hcells : buildWeeks
        (fun day => ⟨day, lookupDay ((l1 ++ e :: l2).filterMap (fun x =>
          x.day.map (fun dt' => (toDate dt', ⟨x.title, x.url, x.cls, dt'⟩)))) day,
          day.month == date.month⟩)
        (iterableDaysList date.year date.month) [] [] =
      buildWeeks
        (fun day => ⟨day, lookupDay ((l1 ++ l2).filterMap (fun x =>
          x.day.map (fun dt' => (toDate dt', ⟨x.title, x.url, x.cls, dt'⟩)))) day,
          day.month == date.month⟩)
        (iterableDaysList date.year date.month) [] [] := by
      apply buildWeeks_congr
      intro d hd
      have hne : ¬ (toDate dt = d) := fun hcontra => hout (hcontra ▸ hd)
      simp only [List.filterMap_append, List.filterMap_cons, hdt, Option.map_some']
      rw [lookupDay_append, lookupDay_append, lookupDay_cons, if_neg hne]
    rw [hcells]

/-- Witness for C10: a well-formed event dated 2008-06-15 leaves the
February 2008 grid untouched. -/
theorem gencal_ignores_outside_event_witness :
    gencal ⟨2008, 2, 1⟩
        [{ day := some ⟨2008, 6, 15, 0, 0⟩, title := "t", url := none, cls := "" }] =
      gencal ⟨2008, 2, 1⟩ [] :=
  gencal_ignores_outside_event ⟨2008, 2, 1⟩ [] []
    { day := some ⟨2008, 6, 15, 0, 0⟩, title := "t", url := none, cls := "" }
    ⟨2008, 6, 15, 0, 0⟩ (by decide) (by decide) rfl (by decide)
